import Mathlib

/-!
Verification development for the cllama-passthrough governance proxy.

The Go sources are shallowly embedded: Go strings are Lean Strings (with
their underlying List Char), Go byte slices over textual data are List Char,
Go maps are association lists, Go http.Header is an association list of
key/value pairs compared case-insensitively, and fallible Go functions
return Except.  Functions from the strings / bytes standard-library
packages (TrimSpace, ToLower, Cut, HasPrefix, EqualFold, Split) are
modelled by the explicit list recursions below.
-/

namespace Proxy

/-- Model of unicode.IsSpace as used by strings.TrimSpace / bytes.TrimSpace. -/
def isWS (c : Char) : Bool := c.isWhitespace

/-- Model of strings.TrimSpace / bytes.TrimSpace on the character list. -/
def trimL (l : List Char) : List Char :=
  ((l.dropWhile isWS).reverse.dropWhile isWS).reverse

/-- Model of strings.ToLower on the character list. -/
def toLowerL (l : List Char) : List Char := l.map Char.toLower

/-- Model of strings.TrimSpace at the String level. -/
def trimS (s : String) : String := String.mk (trimL s.data)

/-- Model of strings.ToLower at the String level. -/
def toLowerS (s : String) : String := String.mk (toLowerL s.data)

/-- Model of strings.EqualFold (restricted to the simple per-character
case folding performed by Char.toLower). -/
def eqFoldL (a b : List Char) : Bool := decide (toLowerL a = toLowerL b)

/-- Model of strings.EqualFold at the String level. -/
def eqFoldS (a b : String) : Bool := eqFoldL a.data b.data

/-- Model of strings.Cut with a one-character separator: splits at the
first occurrence of the separator, returning none when it is absent
(Go returns found=false there). -/
def cutL (sep : Char) : List Char → Option (List Char × List Char)
  | [] => none
  | c :: cs =>
    if c = sep then some ([], cs)
    else
      match cutL sep cs with
      | some p => some (c :: p.1, p.2)
      | none => none

/-- Model of strings.Cut at the String level. -/
def cutS (sep : Char) (s : String) : Option (String × String) :=
  (cutL sep s.data).map (fun p => (String.mk p.1, String.mk p.2))

/-- Provider configuration (src/internal/provider/provider.go, struct
Provider): name, base URL, API key, auth mode, API format. -/
structure Provider where
  name : String
  baseURL : String
  apiKey : String
  auth : String
  apiFormat : String
deriving DecidableEq

/-- Outbound/inbound HTTP headers, modelled as a list of key/value pairs;
Go http.Header canonicalizes keys, modelled here by comparing keys with
EqualFold in every header operation. -/
abbrev Headers := List (String × String)

/-- All values stored under a header key (http.Header.Values). -/
def headerGetAll (hs : Headers) (k : String) : List String :=
  (hs.filter (fun kv => eqFoldS kv.1 k)).map (fun kv => kv.2)

/-- Model of http.Header.Set: replace every value of the key by one value. -/
def headerSet (hs : Headers) (k v : String) : Headers :=
  (hs.filter (fun kv => !(eqFoldS kv.1 k))) ++ [(k, v)]

/-- Model of http.Header.Del: drop every value of the key. -/
def headerDel (hs : Headers) (k : String) : Headers :=
  hs.filter (fun kv => !(eqFoldS kv.1 k))

/-- proxy.isHopByHopHeader (src/unnamed/part_009): the eight hop-by-hop
header names, compared after lower-casing. -/
def isHopByHopHeader (name : String) : Bool :=
  let n := toLowerS name
  n == "connection" || n == "keep-alive" || n == "proxy-authenticate" ||
    n == "proxy-authorization" || n == "te" || n == "trailer" ||
    n == "transfer-encoding" || n == "upgrade"

/-- proxy.copyRequestHeaders (src/unnamed/part_009): copy all inbound
headers into the empty outbound header set, skipping hop-by-hop headers
and any key equal-fold to Authorization. -/
def copyRequestHeaders (src : Headers) : Headers :=
  src.filter (fun kv => !(isHopByHopHeader kv.1 || eqFoldS kv.1 "Authorization"))

/-- proxy.ServeHTTP credential-injection switch (src/unnamed/part_009
lines 146-158), with the HTTP status of each failure (both failures call
h.fail with http.StatusBadGateway = 502):

  switch strings.ToLower(strings.TrimSpace(prov.Auth)) {
  case "", "bearer":
    if strings.TrimSpace(prov.APIKey) == "" { fail 502 "provider API key not configured" }
    outReq.Header.Set("Authorization", "Bearer "+prov.APIKey)
  case "none":
    outReq.Header.Del("Authorization")
  default:
    fail 502 "unsupported provider auth"
  }
-/
def injectCredential (prov : Provider) (hdrs : Headers) : Except (Nat × String) Headers :=
  let mode := toLowerS (trimS prov.auth)
  if mode = "" ∨ mode = "bearer" then
    if trimS prov.apiKey = "" then
      Except.error (502, "provider API key not configured")
    else Except.ok (headerSet hdrs "Authorization" ("Bearer " ++ prov.apiKey))
  else if mode = "none" then Except.ok (headerDel hdrs "Authorization")
  else Except.error (502, "unsupported provider auth")

/-- provider.normalizeName: lower-cased, trimmed provider name. -/
def normalizeName (s : String) : String := toLowerS (trimS s)

/-- provider.Registry.Get: lookup of the normalized name; the registry is
modelled as an association list keyed by normalized names. -/
def registryGet (reg : List (String × Provider)) (name : String) : Option Provider :=
  reg.lookup (normalizeName name)

/-- proxy.splitModel (src/unnamed/part_009 lines 232-238):

  providerName, upstreamModel, ok := strings.Cut(strings.TrimSpace(model), "/")
  if !ok || providerName == "" || upstreamModel == "" {
    return "", "", fmt.Errorf("model must be provider-prefixed: <provider>/<model>") }
  return strings.ToLower(providerName), upstreamModel, nil
-/
def splitModel (model : String) : Except String (String × String) :=
  match cutS '/' (trimS model) with
  | none => Except.error "model must be provider-prefixed: <provider>/<model>"
  | some p =>
    if p.1 = "" ∨ p.2 = "" then
      Except.error "model must be provider-prefixed: <provider>/<model>"
    else Except.ok (toLowerS p.1, p.2)

/-- The routing-and-credential segment of proxy.ServeHTTP: split the
requested model (failures answered with status 400), resolve the provider
in the registry (unknown answered with 502 unknown provider), build the
outbound headers from the inbound ones plus Content-Type, and run the
credential-injection switch.  Successful requests proceed to be forwarded
with the resulting provider key, upstream model and outbound headers. -/
def resolveAndInject (reg : List (String × Provider)) (model : String)
    (inHeaders : Headers) : Except (Nat × String) (String × String × Headers) :=
  match splitModel model with
  | Except.error e => Except.error (400, e)
  | Except.ok pm =>
    match registryGet reg pm.1 with
    | none => Except.error (502, "unknown provider")
    | some prov =>
      let outHeaders := headerSet (copyRequestHeaders inHeaders) "Content-Type" "application/json"
      match injectCredential prov outHeaders with
      | Except.error e => Except.error e
      | Except.ok out2 => Except.ok (pm.1, pm.2, out2)

/-- Components of a parsed net/url URL.  The url.Parse step on the
provider's configured base URL is Go library code; it is modelled by
taking the already-parsed components as input. -/
structure GoURL where
  scheme : String
  host : String
  path : String
  rawQuery : String
deriving DecidableEq

/-- Model of strings.TrimRight(path, "/"): drop every trailing slash. -/
def trimRightSlash (l : List Char) : List Char :=
  (l.reverse.dropWhile (fun c => c == '/')).reverse

/-- proxy.buildUpstreamURL (src/unnamed/part_009 lines 240-262), after
url.Parse of the trimmed base URL (the final u.String() serialization is
left as the component record):

  if u.Scheme == "" || u.Host == "" { return "", fmt.Errorf("invalid base URL ...") }
  suffix := incomingPath
  if !strings.HasPrefix(suffix, "/") { suffix = "/" + suffix }
  if strings.HasPrefix(suffix, "/v1/") { suffix = strings.TrimPrefix(suffix, "/v1") }
  else if suffix == "/v1" { suffix = "/" }
  u.Path = strings.TrimRight(u.Path, "/") + suffix
  u.RawQuery = rawQuery
-/
def buildUpstreamURL (base : GoURL) (incomingPath rawQuery : String) : Except String GoURL :=
  if base.scheme = "" ∨ base.host = "" then Except.error "invalid base URL"
  else
    let suffix0 := if (['/'].isPrefixOf incomingPath.data) then incomingPath.data
      else '/' :: incomingPath.data
    let suffix := if (("/v1/").data.isPrefixOf suffix0) then suffix0.drop 3
      else if suffix0 = ("/v1").data then ['/']
      else suffix0
    Except.ok { base with
      path := String.mk (trimRightSlash base.path.data ++ suffix),
      rawQuery := rawQuery }

/-- Usage counters parsed from an OpenAI-compatible response
(src/internal/cost/usage.go, struct Usage). -/
structure Usage where
  promptTokens : Int
  completionTokens : Int
  totalTokens : Int
deriving DecidableEq

/-- Model of bytes.Split(stream, newline): the list of newline-separated
lines (an empty stream yields one empty line, as in Go). -/
def splitNL : List Char → List (List Char)
  | [] => [[]]
  | c :: cs =>
    if c = '\n' then [] :: splitNL cs
    else
      match splitNL cs with
      | [] => [[c]]
      | h :: t => (c :: h) :: t

/-- cost.ExtractUsageFromSSE (src/internal/cost/usage.go lines 31-50).
The json.Unmarshal of one data payload is Go library code, abstracted as
a decoder returning the payload's usage object when the payload is valid
JSON carrying one and none otherwise; the function itself always returns
without error:

  var lastUsage Usage
  for _, line := range bytes.Split(stream, newline) {
    line = bytes.TrimSpace(line)
    if !bytes.HasPrefix(line, dataMarker) { continue }
    payload := bytes.TrimPrefix(line, dataMarker)
    if bytes.Equal(payload, doneMarker) { continue }
    if json.Unmarshal(payload, &chunk) == nil && chunk.Usage != nil { lastUsage = *chunk.Usage }
  }
  return lastUsage, nil
-/
def ExtractUsageFromSSE (decode : List Char → Option Usage) (stream : String) :
    Except String Usage :=
  Except.ok ((splitNL stream.data).foldl
    (fun last line =>
      let line2 := trimL line
      if (("data: ").data.isPrefixOf line2) then
        let payload := line2.drop 6
        if payload = ("[DONE]").data then last
        else
          match decode payload with
          | some u => u
          | none => last
      else last)
    ⟨0, 0, 0⟩)

/-- The spec-side description of which payloads the SSE extractor
considers: newline-separated lines that (after trimming) carry the
data-marker, with the marker removed and the literal DONE sentinel
skipped. -/
def dataPayloads (stream : String) : List (List Char) :=
  ((((splitNL stream.data).map trimL).filter
      (fun l => ("data: ").data.isPrefixOf l)).map (fun l => l.drop 6)).filter
    (fun p => decide (p ≠ ("[DONE]").data))

/-- The per-line payload decoding used to restate the extractor fold:
some usage exactly for trimmed data-marker lines that are not the DONE
sentinel and whose payload decodes to a usage object. -/
def gLine (decode : List Char → Option Usage) (line : List Char) : Option Usage :=
  let line2 := trimL line
  if (("data: ").data.isPrefixOf line2) then
    let payload := line2.drop 6
    if payload = ("[DONE]").data then none
    else decode payload
  else none

/-- A concrete decoder standing for json.Unmarshal on two recognizable
payloads, used in the concrete part of the SSE claim. -/
def sampleDecode : List Char → Option Usage :=
  fun payload =>
    if payload = ("one").data then some ⟨3, 1, 4⟩
    else if payload = ("two").data then some ⟨100, 50, 150⟩
    else none

/-- Per-million-token price in USD (src/internal/cost/pricing.go, struct
Rate). -/
structure Rate where
  inputPerMTok : Float
  outputPerMTok : Float

/-- Rate.Compute: cost in USD, linear in the token counts. -/
def Rate.compute (r : Rate) (inputTokens outputTokens : Int) : Float :=
  Float.ofInt inputTokens / 1000000 * r.inputPerMTok +
    Float.ofInt outputTokens / 1000000 * r.outputPerMTok

/-- Pricing table: provider to model to rate (src/internal/cost/pricing.go,
struct Pricing); the Go maps are association lists here. -/
structure Pricing where
  rates : List (String × List (String × Rate))

/-- Slicing model[:n], Go's byte-slice prefix used by Lookup. -/
def takeS (s : String) (n : Nat) : String := String.mk (s.data.take n)

/-- One step of the longest-prefix loop in Pricing.Lookup:

  if len(key) > bestLen && len(key) <= len(model) && model[:len(key)] == key {
    best = rate; bestLen = len(key) }
-/
def lookupStep (model : String) (best : Rate × Nat) (e : String × Rate) : Rate × Nat :=
  if e.1.length > best.2 ∧ e.1.length ≤ model.length ∧ takeS model e.1.length = e.1 then
    (e.2, e.1.length)
  else best

/-- cost.Pricing.Lookup (src/internal/cost/pricing.go lines 23-45): exact
match first, then the longest configured key that is a prefix of the
requested model; none when the provider is unknown or no key matches. -/
def Lookup (p : Pricing) (provider model : String) : Option Rate :=
  match p.rates.lookup provider with
  | none => none
  | some models =>
    match models.lookup model with
    | some r => some r
    | none =>
      let best := models.foldl (lookupStep model) (⟨0, 0⟩, 0)
      if best.2 > 0 then some best.1 else none

/-- cost.DefaultPricing (src/internal/cost/pricing.go lines 49-76). -/
def DefaultPricing : Pricing :=
  ⟨[("anthropic",
      [("claude-sonnet-4", ⟨3.0, 15.0⟩), ("claude-sonnet-4-6", ⟨3.0, 15.0⟩),
       ("claude-haiku-3-5", ⟨0.80, 4.0⟩), ("claude-haiku-4-5", ⟨0.80, 4.0⟩),
       ("claude-opus-4", ⟨15.0, 75.0⟩), ("claude-opus-4-6", ⟨15.0, 75.0⟩)]),
    ("openai",
      [("gpt-4o", ⟨2.50, 10.0⟩), ("gpt-4o-mini", ⟨0.15, 0.60⟩),
       ("gpt-4.1", ⟨2.0, 8.0⟩), ("gpt-4.1-mini", ⟨0.40, 1.60⟩),
       ("gpt-4.1-nano", ⟨0.10, 0.40⟩), ("o3", ⟨2.0, 8.0⟩),
       ("o4-mini", ⟨1.10, 4.40⟩)]),
    ("openrouter",
      [("anthropic/claude-sonnet-4", ⟨3.0, 15.0⟩),
       ("anthropic/claude-haiku-3-5", ⟨0.80, 4.0⟩),
       ("google/gemini-2.5-pro", ⟨1.25, 10.0⟩),
       ("google/gemini-2.5-flash", ⟨0.15, 0.60⟩)])]⟩

/-- A finite IEEE-754 binary64 value, represented exactly as the dyadic
rational m * 2^e.  The canonical form (mantissa odd or zero, zero as
0 * 2^0) makes value equality structural equality. -/
structure F64 where
  m : Int
  e : Int
deriving DecidableEq

/-- The float64 zero value. -/
def f64Zero : F64 := ⟨0, 0⟩

/-- Strip factors of two from the mantissa to reach the canonical form;
the fuel bounds the loop and any fuel at least the mantissa magnitude is
enough. -/
def stripTwos : Nat → Int → Int → F64
  | 0, m, e => ⟨m, e⟩
  | fuel + 1, m, e =>
    if m ≠ 0 ∧ m % 2 = 0 then stripTwos fuel (m / 2) (e + 1) else ⟨m, e⟩

/-- Canonicalize a mantissa/exponent pair. -/
def f64Canon (m e : Int) : F64 :=
  if m = 0 then ⟨0, 0⟩ else stripTwos m.natAbs m e

/-- Number of binary digits of a natural number (fuel-driven; fuel n is
enough for n itself). -/
def bitLen : Nat → Nat → Nat
  | 0, _ => 0
  | fuel + 1, n => if n = 0 then 0 else bitLen fuel (n / 2) + 1

/-- Round the exact value M * 2^e to the nearest binary64 value: a 53-bit
significand with round-to-nearest ties-to-even, the rounding mode of Go
float64 arithmetic (overflow and subnormals are outside the in-range
costs in view and not modelled). -/
def roundMantissa (M : Int) (e : Int) : F64 :=
  if M = 0 then ⟨0, 0⟩
  else
    let a := M.natAbs
    let n := bitLen a a
    if n ≤ 53 then f64Canon M e
    else
      let shift := n - 53
      let q := a / 2 ^ shift
      let r := a % 2 ^ shift
      let half := 2 ^ (shift - 1)
      let q2 := if r < half then q
        else if r > half then q + 1
        else if q % 2 = 0 then q else q + 1
      let sign : Int := if M < 0 then -1 else 1
      f64Canon (sign * q2) (e + shift)

/-- float64 addition as performed by the accumulator's += on the cost
field: align the exponents, add the mantissas exactly, round to
binary64. -/
def f64Add (x y : F64) : F64 :=
  let emin := min x.e y.e
  let M := x.m * 2 ^ (x.e - emin).toNat + y.m * 2 ^ (y.e - emin).toNat
  roundMantissa M emin

/-- The binary64 value of the Go literal 0.1 (nearest double,
3602879701896397 * 2^-55). -/
def f64OfTenth : F64 := ⟨3602879701896397, -55⟩

/-- The binary64 value of the Go literal 0.2 (nearest double,
3602879701896397 * 2^-54). -/
def f64OfFifth : F64 := ⟨3602879701896397, -54⟩

/-- The binary64 value of the Go literal 0.3 (nearest double,
5404319552844595 * 2^-54). -/
def f64OfThreeTenths : F64 := ⟨5404319552844595, -54⟩

/-- One cost bucket (src/internal/cost/accumulator.go, struct CostEntry);
the float64 cost holds a binary64 value. -/
structure CostEntry where
  agentID : String
  provider : String
  model : String
  totalInputTokens : Int
  totalOutputTokens : Int
  totalCostUSD : F64
  requestCount : Nat
deriving DecidableEq

/-- The arguments of one Accumulator.Record call. -/
structure RecordCall where
  agentID : String
  provider : String
  model : String
  inputTokens : Int
  outputTokens : Int
  costUSD : F64
deriving DecidableEq

/-- The accumulator's bucket key (agent, provider, model). -/
abbrev BucketKey := String × String × String

/-- The bucket key of one Record call. -/
def keyOf (c : RecordCall) : BucketKey := (c.agentID, c.provider, c.model)

/-- The bucket update inside Accumulator.Record: fetch the bucket or
create a fresh one for the key, then add the call's counters; the cost
addition is float64 addition. -/
def bump (o : Option CostEntry) (c : RecordCall) : CostEntry :=
  let e := o.getD ⟨c.agentID, c.provider, c.model, 0, 0, f64Zero, 0⟩
  { e with
    totalInputTokens := e.totalInputTokens + c.inputTokens,
    totalOutputTokens := e.totalOutputTokens + c.outputTokens,
    totalCostUSD := f64Add e.totalCostUSD c.costUSD,
    requestCount := e.requestCount + 1 }

/-- cost.Accumulator.Record (src/internal/cost/accumulator.go lines
35-48) as a map update, the whole update running under the accumulator's
write lock. -/
def record (b : BucketKey → Option CostEntry) (c : RecordCall) : BucketKey → Option CostEntry :=
  fun k => if k = keyOf c then some (bump (b k) c) else b k

/-- A fresh accumulator (cost.NewAccumulator) after a finite sequence of
Record calls. -/
def recordAll (calls : List RecordCall) : BucketKey → Option CostEntry :=
  calls.foldl record (fun _ => none)

/-!
identity.ParseBearer (src/internal/identity/identity.go):

  func ParseBearer(header string) (agentID, secret string, err error) {
    header = strings.TrimSpace(header)
    if header == "" { return "", "", fmt.Errorf("missing authorization header") }
    scheme, token, ok := strings.Cut(header, " ")
    if !ok || !strings.EqualFold(scheme, "Bearer") {
      return "", "", fmt.Errorf("invalid authorization: expected Bearer scheme") }
    token = strings.TrimSpace(token)
    if token == "" { return "", "", fmt.Errorf("invalid bearer token: empty token") }
    agentID, secret, ok = strings.Cut(token, ":")
    if !ok || agentID == "" || secret == "" {
      return "", "", fmt.Errorf("invalid bearer token: expected <agent-id>:<secret>") }
    return agentID, secret, nil
  }
-/

/-- Character-list core of identity.ParseBearer. -/
def parseBearerCore (raw : List Char) : Except String (List Char × List Char) :=
  let header := trimL raw
  if header = [] then .error "missing authorization header"
  else
    match cutL ' ' header with
    | none => .error "invalid authorization: expected Bearer scheme"
    | some st =>
      if eqFoldL st.1 ("Bearer").data then
        let token := trimL st.2
        if token = [] then .error "invalid bearer token: empty token"
        else
          match cutL ':' token with
          | none => .error "invalid bearer token: expected <agent-id>:<secret>"
          | some p =>
            if p.1 = [] ∨ p.2 = [] then
              .error "invalid bearer token: expected <agent-id>:<secret>"
            else .ok (p.1, p.2)
      else .error "invalid authorization: expected Bearer scheme"

/-- identity.ParseBearer, extracting (agentID, secret) from a raw
Authorization header value. -/
def ParseBearer (header : String) : Except String (String × String) :=
  (parseBearerCore header.data).map (fun p => (String.mk p.1, String.mk p.2))

/-- Formatting direction of the bearer credential scheme: the header shape
the spec prescribes for agents, used to state the round-trip property. -/
def formatBearer (agentID secret : String) : String :=
  "Bearer " ++ agentID ++ ":" ++ secret

/-- proxy.constantTimeEqual: a length check (allowed to short-circuit)
followed by a constant-time byte comparison; functionally this is string
equality, which is what the model records. -/
def constantTimeEqualL (a b : List Char) : Bool :=
  if a.length = b.length then a == b else false

/-- proxy.validateSecret core (src/unnamed/part_009 lines 205-230) over
character lists:

  stored := strings.TrimSpace(ctx.MetadataToken())
  if stored == "" { return error "metadata token missing" }
  if strings.HasPrefix(strings.ToLower(stored), "bearer ") {
    stored = strings.TrimSpace(stored[7:]) }
  storedAgent, storedSecret, hasColon := strings.Cut(stored, ":")
  if hasColon {
    if storedAgent != "" && storedAgent != agentID { return error "token agent mismatch" }
    if !constantTimeEqual(storedSecret, presentedSecret) { return error "secret mismatch" }
    return nil }
  if !constantTimeEqual(stored, presentedSecret) { return error "secret mismatch" }
  return nil
-/
def validateSecretCore (stored agentID presented : List Char) : Except String Unit :=
  let st := trimL stored
  if st = [] then Except.error "metadata token missing"
  else
    let st2 := if ("bearer ").data.isPrefixOf (toLowerL st) then trimL (st.drop 7) else st
    match cutL ':' st2 with
    | some q =>
      if q.1 ≠ [] ∧ q.1 ≠ agentID then Except.error "token agent mismatch"
      else if constantTimeEqualL q.2 presented = false then Except.error "secret mismatch"
      else Except.ok ()
    | none =>
      if constantTimeEqualL st2 presented = false then Except.error "secret mismatch"
      else Except.ok ()

/-- proxy.validateSecret at the String level; the stored reference is the
agent context's metadata token (ctx.MetadataToken()), passed here directly
as a string. -/
def validateSecret (storedToken agentID presented : String) : Except String Unit :=
  validateSecretCore storedToken.data agentID.data presented.data

/-! Basic lemmas about the string models. -/

lemma data_append (a b : String) : (a ++ b).data = a.data ++ b.data := by
  cases a; cases b; rfl

lemma mk_eq_empty_iff (l : List Char) : (String.mk l = "") ↔ l = [] := by
  rw [show ("" : String) = String.mk [] from rfl, String.ext_iff]

lemma dropWhile_eq_self_of (p : Char → Bool) (l : List Char)
    (h : ∀ c ∈ l, p c = false) : l.dropWhile p = l := by
  induction l with
  | nil => rfl
  | cons a t ih =>
    have ha : p a = false := h a (by simp)
    simp [List.dropWhile, ha]

lemma trimL_eq_self_of (l : List Char) (h : ∀ c ∈ l, isWS c = false) :
    trimL l = l := by
  unfold trimL
  rw [dropWhile_eq_self_of isWS l h]
  rw [dropWhile_eq_self_of isWS l.reverse (by intro c hc; exact h c (by simpa using hc))]
  simp

lemma trimL_ends (a z : Char) (mid : List Char)
    (ha : isWS a = false) (hz : isWS z = false) :
    trimL (a :: (mid ++ [z])) = a :: (mid ++ [z]) := by
  unfold trimL
  rw [show List.dropWhile isWS (a :: (mid ++ [z])) = a :: (mid ++ [z]) by
    simp [List.dropWhile, ha]]
  rw [show (a :: (mid ++ [z])).reverse = z :: (mid.reverse ++ [a]) by simp]
  rw [show List.dropWhile isWS (z :: (mid.reverse ++ [a])) = z :: (mid.reverse ++ [a]) by
    simp [List.dropWhile, hz]]
  simp

lemma cutL_of_not_mem (sep : Char) (l : List Char) (h : sep ∉ l) :
    cutL sep l = none := by
  induction l with
  | nil => rfl
  | cons c cs ih =>
    have hc : ¬ c = sep := by intro hEq; exact h (by simp [hEq])
    have hcs : sep ∉ cs := by intro hm; exact h (by simp [hm])
    simp [cutL, hc, ih hcs]

lemma cutL_append (sep : Char) (a b : List Char) (h : sep ∉ a) :
    cutL sep (a ++ sep :: b) = some (a, b) := by
  induction a with
  | nil => simp [cutL]
  | cons c cs ih =>
    have hc : ¬ c = sep := by intro hEq; apply h; simp [hEq]
    have hcs : sep ∉ cs := by intro hm; apply h; simp [hm]
    simp [cutL, hc, ih hcs]

lemma ws_of_not_forall {l : List Char} (z : Char) (hz : z ∈ l)
    (h : ∀ c ∈ l, isWS c = false) : isWS z = false := h z hz

/-- Claim C4: for every well-formed Bearer header (nonempty colon-free
agent id, nonempty secret, no whitespace inside either part), formatting
"Bearer " ++ id ++ ":" ++ secret and parsing it back recovers exactly the
original id (everything before the first colon) and the original secret
(everything after the first colon), even when the secret itself contains
further colon characters. -/
theorem parseBearer_roundtrip_C4 (id secret : String)
    (hid : id ≠ "") (hsec : secret ≠ "")
    (hidc : ':' ∉ id.data)
    (hidw : ∀ c ∈ id.data, isWS c = false)
    (hsecw : ∀ c ∈ secret.data, isWS c = false)
    (hcolon : ':' ∈ secret.data) :
    ParseBearer (formatBearer id secret) = Except.ok (id, secret) := by
  obtain ⟨I⟩ := id
  obtain ⟨S⟩ := secret
  have hI : I ≠ [] := by simpa [mk_eq_empty_iff] using hid
  have hS : S ≠ [] := by simpa [mk_eq_empty_iff] using hsec
  have hdata : (formatBearer (String.mk I) (String.mk S)).data
      = ['B', 'e', 'a', 'r', 'e', 'r'] ++ ' ' :: (I ++ ':' :: S) := by
    simp [formatBearer, data_append]
  -- decompose I and S for the trim arguments
  obtain ⟨i0, I', hI'⟩ : ∃ i0 I', I = i0 :: I' := by
    cases I with
    | nil => exact absurd rfl hI
    | cons x xs => exact ⟨x, xs, rfl⟩
  obtain ⟨S0, z, hS0⟩ : ∃ S0 z, S = S0 ++ [z] := by
    rcases List.eq_nil_or_concat S with h | ⟨t, c, hc⟩
    · exact absurd h hS
    · exact ⟨t, c, by simpa [List.concat_eq_append] using hc⟩
  have hi0 : isWS i0 = false := hidw i0 (by simp [hI'])
  have hzw : isWS z = false := hsecw z (by simp [hS0])
  -- the full header is trim-invariant: starts with B, ends with z
  have htrim1 : trimL (['B', 'e', 'a', 'r', 'e', 'r'] ++ ' ' :: (I ++ ':' :: S))
      = ['B', 'e', 'a', 'r', 'e', 'r'] ++ ' ' :: (I ++ ':' :: S) := by
    have hshape : ['B', 'e', 'a', 'r', 'e', 'r'] ++ ' ' :: (I ++ ':' :: S)
        = 'B' :: (('e' :: 'a' :: 'r' :: 'e' :: 'r' :: ' ' :: (I ++ ':' :: S0)) ++ [z]) := by
      simp [hS0]
    rw [hshape, trimL_ends 'B' z _ (by simp [isWS]) hzw]
  -- the token part is trim-invariant as well
  have htrim2 : trimL (I ++ ':' :: S) = I ++ ':' :: S := by
    have hshape : I ++ ':' :: S = i0 :: ((I' ++ ':' :: S0) ++ [z]) := by
      simp [hI', hS0]
    rw [hshape, trimL_ends i0 z _ hi0 hzw]
  have hcut1 : cutL ' ' (['B', 'e', 'a', 'r', 'e', 'r'] ++ ' ' :: (I ++ ':' :: S))
      = some (['B', 'e', 'a', 'r', 'e', 'r'], I ++ ':' :: S) :=
    cutL_append ' ' _ _ (by decide)
  have hcut2 : cutL ':' (I ++ ':' :: S) = some (I, S) :=
    cutL_append ':' _ _ hidc
  have heq : eqFoldL ['B', 'e', 'a', 'r', 'e', 'r'] ("Bearer").data = true := by decide
  have hcore : parseBearerCore (['B', 'e', 'a', 'r', 'e', 'r'] ++ ' ' :: (I ++ ':' :: S))
      = Except.ok (I, S) := by
    simp only [parseBearerCore, htrim1, hcut1, heq, htrim2, hcut2]
    simp [hI, hS]
  simp only [List.cons_append, List.nil_append] at hcore
  simp only [ParseBearer, hdata]
  simp only [List.cons_append, List.nil_append, hcore]
  rfl

/-- Witness for C4 at a concrete credential whose secret contains two
colons: parsing the formatted header returns the pair unchanged. -/
theorem parseBearer_roundtrip_C4_witness :
    ParseBearer (formatBearer "tiverton" "se:cr:et") = Except.ok ("tiverton", "se:cr:et") :=
  parseBearer_roundtrip_C4 "tiverton" "se:cr:et" (by decide) (by decide)
    (by decide) (by decide) (by decide) (by decide)

lemma parseBearerCore_ok_nonempty (l : List Char) (a b : List Char)
    (h : parseBearerCore l = Except.ok (a, b)) : a ≠ [] ∧ b ≠ [] := by
  simp only [parseBearerCore] at h
  split at h
  · exact absurd h (by simp)
  · split at h
    · exact absurd h (by simp)
    · split at h
      · split at h
        · exact absurd h (by simp)
        · split at h
          · exact absurd h (by simp)
          · split at h
            · exact absurd h (by simp)
            · rename_i hcond
              simp only [Except.ok.injEq, Prod.mk.injEq] at h
              obtain ⟨h1, h2⟩ := h
              push_neg at hcond
              rw [← h1, ← h2]
              exact hcond
      · exact absurd h (by simp)

/-- Claim C10: whenever the bearer token does contain the colon separator
but its agent-id part or secret part is empty, the parser rejects it; in
particular every successful parse yields a nonempty agent id and secret,
and both "Bearer :secret" and "Bearer agent:" fail with the malformed
bearer-token error. -/
theorem parseBearer_rejects_empty_parts_C10 :
    (∀ header a s, ParseBearer header = Except.ok (a, s) → a ≠ "" ∧ s ≠ "") ∧
    ParseBearer "Bearer :secret"
      = Except.error "invalid bearer token: expected <agent-id>:<secret>" ∧
    ParseBearer "Bearer agent:"
      = Except.error "invalid bearer token: expected <agent-id>:<secret>" := by
  refine ⟨?_, by rfl, by rfl⟩
  intro header a s h
  obtain ⟨A⟩ := a
  obtain ⟨S⟩ := s
  simp only [ParseBearer] at h
  cases hc : parseBearerCore header.data with
  | error e => rw [hc] at h; simp [Except.map] at h
  | ok p =>
    rw [hc] at h
    simp only [Except.map, Except.ok.injEq, Prod.mk.injEq] at h
    obtain ⟨h1, h2⟩ := h
    have hne := parseBearerCore_ok_nonempty header.data p.1 p.2 (by rw [hc])
    constructor
    · rw [← h1]; simpa [mk_eq_empty_iff] using hne.1
    · rw [← h2]; simpa [mk_eq_empty_iff] using hne.2

/-- Witness for C10: a successful parse of a concrete valid header, whose
components the theorem shows nonempty. -/
theorem parseBearer_rejects_empty_parts_C10_witness :
    ("bot" : String) ≠ "" ∧ ("goodsecret" : String) ≠ "" :=
  parseBearer_rejects_empty_parts_C10.1 "Bearer bot:goodsecret" "bot" "goodsecret" (by rfl)

lemma mem_of_mem_dropWhile (p : Char → Bool) :
    ∀ (l : List Char) (c : Char), c ∈ l.dropWhile p → c ∈ l := by
  intro l
  induction l with
  | nil => intro c h; simp at h
  | cons a t ih =>
    intro c h
    by_cases hp : p a = true
    · simp [List.dropWhile, hp] at h
      exact List.mem_cons_of_mem a (ih c h)
    · simp [List.dropWhile, Bool.of_not_eq_true hp] at h
      simpa using h

lemma mem_of_mem_trimL {c : Char} {l : List Char} (h : c ∈ trimL l) : c ∈ l := by
  unfold trimL at h
  rw [List.mem_reverse] at h
  have h2 := mem_of_mem_dropWhile isWS _ _ h
  rw [List.mem_reverse] at h2
  exact mem_of_mem_dropWhile isWS _ _ h2

/-- Claim C5: model splitting divides the client model string at the first
slash only, lower-casing the provider part and passing the remainder
through unmodified; the documented examples evaluate as stated; a model
string without a slash fails with the malformed-model error, and in the
pipeline such a request is rejected with status 400. -/
theorem splitModel_first_slash_C5 :
    (∀ p m : String, p ≠ "" → m ≠ "" → '/' ∉ p.data →
      (∀ c ∈ p.data, isWS c = false) → (∀ c ∈ m.data, isWS c = false) →
      splitModel (p ++ "/" ++ m) = Except.ok (toLowerS p, m)) ∧
    splitModel "openai/gpt-4o" = Except.ok ("openai", "gpt-4o") ∧
    splitModel "openrouter/anthropic/claude-3-5"
      = Except.ok ("openrouter", "anthropic/claude-3-5") ∧
    splitModel "no-slash-here"
      = Except.error "model must be provider-prefixed: <provider>/<model>" ∧
    (∀ s : String, '/' ∉ s.data →
      splitModel s = Except.error "model must be provider-prefixed: <provider>/<model>" ∧
      ∀ (reg : List (String × Provider)) (hdrs : Headers),
        resolveAndInject reg s hdrs
          = Except.error (400, "model must be provider-prefixed: <provider>/<model>")) := by
  refine ⟨?_, by rfl, by rfl, by rfl, ?_⟩
  · intro p m hp hm hpc hpw hmw
    obtain ⟨P⟩ := p
    obtain ⟨M⟩ := m
    have hPne : P ≠ [] := by simpa [mk_eq_empty_iff] using hp
    have hMne : M ≠ [] := by simpa [mk_eq_empty_iff] using hm
    have hdata : ((String.mk P) ++ "/" ++ (String.mk M)).data = P ++ '/' :: M := by
      simp [data_append]
    have htrim : trimL (P ++ '/' :: M) = P ++ '/' :: M := by
      apply trimL_eq_self_of
      intro c hc
      rcases List.mem_append.mp hc with hcl | hcr
      · exact hpw c hcl
      · rcases List.mem_cons.mp hcr with hsl | hsr
        · rw [hsl]; decide
        · exact hmw c hsr
    have hcut : cutL '/' (P ++ '/' :: M) = some (P, M) := cutL_append '/' _ _ hpc
    simp only [splitModel, trimS, hdata, htrim, cutS, hcut, Option.map]
    rw [if_neg (by simp [mk_eq_empty_iff, hPne, hMne])]
  · intro s hs
    obtain ⟨L⟩ := s
    have hnm : '/' ∉ trimL L := fun hmem => hs (mem_of_mem_trimL hmem)
    have hcut : cutL '/' (trimL L) = none := cutL_of_not_mem '/' _ hnm
    have hsplit : splitModel (String.mk L)
        = Except.error "model must be provider-prefixed: <provider>/<model>" := by
      simp only [splitModel, trimS, cutS, hcut, Option.map]
    refine ⟨hsplit, ?_⟩
    intro reg hdrs
    simp only [resolveAndInject, hsplit]

/-- Witness for C5 at concrete inputs: the general split law at
openai / gpt-4o, and the 400 rejection of a slash-free model string in
the pipeline with an empty registry and no headers. -/
theorem splitModel_first_slash_C5_witness :
    splitModel ("openai" ++ "/" ++ "gpt-4o") = Except.ok (toLowerS "openai", "gpt-4o") ∧
    resolveAndInject [] "no-slash-here" []
      = Except.error (400, "model must be provider-prefixed: <provider>/<model>") :=
  ⟨splitModel_first_slash_C5.1 "openai" "gpt-4o" (by decide) (by decide) (by decide)
      (by decide) (by decide),
    (splitModel_first_slash_C5.2.2.2.2 "no-slash-here" (by decide)).2 [] []⟩

lemma filter_sub_nil {α : Type} (p q : α → Bool) (h : ∀ x, q x = true → p x = false) :
    ∀ l : List α, (l.filter q).filter p = [] := by
  intro l
  induction l with
  | nil => rfl
  | cons a t ih =>
    cases hq : q a with
    | false => simp [List.filter_cons, hq, ih]
    | true => simp [List.filter_cons, hq, h a hq, ih]

lemma eqFoldS_self (k : String) : eqFoldS k k = true := by
  simp [eqFoldS, eqFoldL]

lemma headerGetAll_set_self (hs : Headers) (k v : String) :
    headerGetAll (headerSet hs k v) k = [v] := by
  unfold headerGetAll headerSet
  rw [List.filter_append]
  rw [filter_sub_nil (fun kv => eqFoldS kv.1 k) (fun kv => !(eqFoldS kv.1 k))
    (by intro x hx; simpa using hx) hs]
  simp [eqFoldS_self]

lemma headerGetAll_del_self (hs : Headers) (k : String) :
    headerGetAll (headerDel hs k) k = [] := by
  unfold headerGetAll headerDel
  rw [filter_sub_nil (fun kv => eqFoldS kv.1 k) (fun kv => !(eqFoldS kv.1 k))
    (by intro x hx; simpa using hx) hs]
  rfl

/-- Claim C2: the credential-injection switch fully owns the outbound
Authorization header: for auth mode bearer or unset it sets Authorization
to exactly "Bearer " followed by the configured key and fails with the 502
missing-key error when the key is empty; for auth mode none it removes any
Authorization header; and the inbound Authorization header is never copied
to the outbound request by the header-copy step. -/
theorem credential_injection_C2 :
    (∀ (prov : Provider) (hdrs : Headers),
      (toLowerS (trimS prov.auth) = "bearer" ∨ toLowerS (trimS prov.auth) = "") →
      (trimS prov.apiKey = "" →
        injectCredential prov hdrs = Except.error (502, "provider API key not configured")) ∧
      (trimS prov.apiKey ≠ "" →
        injectCredential prov hdrs
          = Except.ok (headerSet hdrs "Authorization" ("Bearer " ++ prov.apiKey)) ∧
        headerGetAll (headerSet hdrs "Authorization" ("Bearer " ++ prov.apiKey)) "Authorization"
          = ["Bearer " ++ prov.apiKey])) ∧
    (∀ (prov : Provider) (hdrs : Headers), toLowerS (trimS prov.auth) = "none" →
      injectCredential prov hdrs = Except.ok (headerDel hdrs "Authorization") ∧
      headerGetAll (headerDel hdrs "Authorization") "Authorization" = []) ∧
    (∀ src : Headers, headerGetAll (copyRequestHeaders src) "Authorization" = []) := by
  refine ⟨?_, ?_, ?_⟩
  · intro prov hdrs hmode
    have hif : (toLowerS (trimS prov.auth) = "" ∨ toLowerS (trimS prov.auth) = "bearer") := by
      rcases hmode with h | h
      · exact Or.inr h
      · exact Or.inl h
    constructor
    · intro hkey
      simp only [injectCredential]
      rw [if_pos hif, if_pos hkey]
    · intro hkey
      constructor
      · simp only [injectCredential]
        rw [if_pos hif, if_neg hkey]
      · exact headerGetAll_set_self hdrs "Authorization" ("Bearer " ++ prov.apiKey)
  · intro prov hdrs hmode
    constructor
    · simp only [injectCredential, hmode]
      rw [if_neg (by decide)]
      simp
    · exact headerGetAll_del_self hdrs "Authorization"
  · intro src
    unfold headerGetAll copyRequestHeaders
    rw [filter_sub_nil (fun kv => eqFoldS kv.1 "Authorization")
      (fun kv => !(isHopByHopHeader kv.1 || eqFoldS kv.1 "Authorization"))
      (by intro x hx; simp at hx; exact hx.2) src]
    rfl

/-- Witness for C2 at concrete providers: bearer mode with a key sets the
header, bearer mode without a key fails 502, and none mode strips the
header; the copy step passes no Authorization value through. -/
theorem credential_injection_C2_witness :
    injectCredential ⟨"openrouter", "https://openrouter.ai/api/v1", "sk-or", "bearer", "openai"⟩
        [("Accept", "text/plain")]
      = Except.ok (headerSet [("Accept", "text/plain")] "Authorization" ("Bearer " ++ "sk-or")) ∧
    injectCredential ⟨"openai", "https://api.openai.com/v1", "", "bearer", "openai"⟩ []
      = Except.error (502, "provider API key not configured") ∧
    injectCredential ⟨"ollama", "http://ollama:11434/v1", "", "none", "openai"⟩
        [("Authorization", "Bearer sk-agent")]
      = Except.ok (headerDel [("Authorization", "Bearer sk-agent")] "Authorization") ∧
    headerGetAll (copyRequestHeaders [("Authorization", "Bearer bot:goodsecret"), ("Accept", "a")])
      "Authorization" = [] := by
  refine ⟨?_, ?_, ?_, ?_⟩
  · exact ((credential_injection_C2.1
      ⟨"openrouter", "https://openrouter.ai/api/v1", "sk-or", "bearer", "openai"⟩
      [("Accept", "text/plain")] (Or.inl (by decide))).2 (by decide)).1
  · exact (credential_injection_C2.1
      ⟨"openai", "https://api.openai.com/v1", "", "bearer", "openai"⟩
      [] (Or.inl (by decide))).1 (by decide)
  · exact (credential_injection_C2.2.1
      ⟨"ollama", "http://ollama:11434/v1", "", "none", "openai"⟩
      [("Authorization", "Bearer sk-agent")] (by decide)).1
  · exact credential_injection_C2.2.2 [("Authorization", "Bearer bot:goodsecret"), ("Accept", "a")]

/-- Claim C1 (code bug): the credential-injection switch has no case for
the x-api-key auth mode, so a provider configured with auth x-api-key
(the registry default for anthropic, asserted working by the repository's
own spike test and README) falls into the default branch and the request
fails with the 502 unsupported-auth error instead of being forwarded with
an x-api-key header. -/
theorem xapikey_unsupported_C1 :
    injectCredential
        ⟨"anthropic", "https://api.anthropic.com/v1", "sk-real", "x-api-key", "anthropic"⟩ []
      = Except.error (502, "unsupported provider auth") ∧
    resolveAndInject
        [("anthropic",
          ⟨"anthropic", "https://api.anthropic.com/v1", "sk-real", "x-api-key", "anthropic"⟩)]
        "anthropic/claude-sonnet-4" []
      = Except.error (502, "unsupported provider auth") :=
  ⟨rfl, rfl⟩

lemma ws_toLower_self (c : Char) (h : isWS c = true) : c.toLower = c := by
  simp [isWS, Char.isWhitespace] at h
  rcases h with ((h | h) | h) | h <;> subst h <;> decide

lemma isWS_false_of_toLower (c : Char) (hc : isWS c.toLower = false) : isWS c = false := by
  by_contra h
  have h1 : isWS c = true := by
    cases h2 : isWS c
    · exact absurd h2 h
    · rfl
  rw [ws_toLower_self c h1] at hc
  rw [hc] at h1
  exact absurd h1 (by simp)

lemma isPrefixOf_append_self (x y : List Char) : x.isPrefixOf (x ++ y) = true := by
  induction x with
  | nil => simp [List.isPrefixOf]
  | cons a t ih => simp [List.isPrefixOf, ih]

lemma validateSecretCore_plain (S a p : List Char) (hSne : S ≠ [])
    (hSw : ∀ c ∈ S, isWS c = false)
    (hSb : (("bearer ").data.isPrefixOf (toLowerL S)) = false) :
    validateSecretCore S a p =
      match cutL ':' S with
      | some q =>
        if q.1 ≠ [] ∧ q.1 ≠ a then Except.error "token agent mismatch"
        else if constantTimeEqualL q.2 p = false then Except.error "secret mismatch"
        else Except.ok ()
      | none =>
        if constantTimeEqualL S p = false then Except.error "secret mismatch"
        else Except.ok () := by
  simp only [validateSecretCore]
  rw [trimL_eq_self_of S hSw]
  rw [if_neg hSne]
  rw [if_neg (by simp [hSb])]

lemma validateSecretCore_strip (P S a p : List Char)
    (h7 : toLowerL P = ("bearer ").data)
    (hSne : S ≠ []) (hSw : ∀ c ∈ S, isWS c = false)
    (hSb : (("bearer ").data.isPrefixOf (toLowerL S)) = false) :
    validateSecretCore (P ++ S) a p = validateSecretCore S a p := by
  have hlen : P.length = 7 := by
    have := congrArg List.length h7
    simpa [toLowerL] using this
  obtain ⟨p0, P', hP⟩ : ∃ p0 P', P = p0 :: P' := by
    cases P with
    | nil => simp at hlen
    | cons x xs => exact ⟨x, xs, rfl⟩
  have hp0 : isWS p0 = false := by
    apply isWS_false_of_toLower
    have h7c := h7
    rw [hP, show ("bearer ").data = ['b', 'e', 'a', 'r', 'e', 'r', ' '] from rfl] at h7c
    simp only [toLowerL, List.map_cons] at h7c
    have hhead : p0.toLower = 'b' := by
      have hq := congrArg (fun l => l.head?) h7c
      simpa using hq
    rw [hhead]; decide
  obtain ⟨S0, z, hS0⟩ : ∃ S0 z, S = S0 ++ [z] := by
    rcases List.eq_nil_or_concat S with h | ⟨t, c, hc⟩
    · exact absurd h hSne
    · exact ⟨t, c, by simpa [List.concat_eq_append] using hc⟩
  have hzw : isWS z = false := hSw z (by simp [hS0])
  have htrim : trimL (P ++ S) = P ++ S := by
    have hshape : P ++ S = p0 :: ((P' ++ S0) ++ [z]) := by
      simp [hP, hS0]
    rw [hshape, trimL_ends p0 z _ hp0 hzw]
  have hpre : (("bearer ").data.isPrefixOf (toLowerL (P ++ S))) = true := by
    have hmap : toLowerL (P ++ S) = toLowerL P ++ toLowerL S := by
      simp [toLowerL]
    rw [hmap, h7]
    exact isPrefixOf_append_self _ _
  have hdrop : (P ++ S).drop 7 = S := by
    rw [← hlen]
    exact List.drop_left P S
  have hlhs : validateSecretCore (P ++ S) a p =
      match cutL ':' S with
      | some q =>
        if q.1 ≠ [] ∧ q.1 ≠ a then Except.error "token agent mismatch"
        else if constantTimeEqualL q.2 p = false then Except.error "secret mismatch"
        else Except.ok ()
      | none =>
        if constantTimeEqualL S p = false then Except.error "secret mismatch"
        else Except.ok () := by
    simp only [validateSecretCore]
    rw [htrim]
    rw [if_neg (by simp [hP])]
    rw [if_pos hpre]
    rw [hdrop, trimL_eq_self_of S hSw]
  rw [hlhs, validateSecretCore_plain S a p hSne hSw hSb]

/-- Claim C3: secret validation is invariant to a leading case-insensitive
"bearer " scheme marker on the stored reference and to whether the stored
reference is a bare secret or agent:secret with the matching agent id;
when the stored reference encodes a nonempty agent id that differs from
the request-derived agent id, validation fails with the agent-mismatch
error. -/
theorem validateSecret_invariance_C3 :
    (∀ (pfx s agent presented : String),
      toLowerL pfx.data = ("bearer ").data →
      s ≠ "" → (∀ c ∈ s.data, isWS c = false) →
      (("bearer ").data.isPrefixOf (toLowerL s.data)) = false →
      validateSecret (pfx ++ s) agent presented = validateSecret s agent presented) ∧
    (∀ (agent secret presented : String),
      ':' ∉ agent.data → (∀ c ∈ agent.data, isWS c = false) →
      secret ≠ "" → (∀ c ∈ secret.data, isWS c = false) → ':' ∉ secret.data →
      (("bearer ").data.isPrefixOf (toLowerL secret.data)) = false →
      (("bearer ").data.isPrefixOf (toLowerL (agent.data ++ ':' :: secret.data))) = false →
      validateSecret (agent ++ ":" ++ secret) agent presented
        = validateSecret secret agent presented) ∧
    (∀ (other agent secret presented : String),
      other ≠ "" → other ≠ agent → ':' ∉ other.data → (∀ c ∈ other.data, isWS c = false) →
      secret ≠ "" → (∀ c ∈ secret.data, isWS c = false) →
      (("bearer ").data.isPrefixOf (toLowerL (other.data ++ ':' :: secret.data))) = false →
      validateSecret (other ++ ":" ++ secret) agent presented
        = Except.error "token agent mismatch") := by
  refine ⟨?_, ?_, ?_⟩
  · intro pfx s agent presented h7 hs hsw hsb
    have hSne : s.data ≠ [] := by
      obtain ⟨S⟩ := s
      simpa [mk_eq_empty_iff] using hs
    simp only [validateSecret, data_append]
    exact validateSecretCore_strip pfx.data s.data agent.data presented.data h7 hSne hsw hsb
  · intro agent secret presented hac haw hs hsw hsc hsb hqb
    have hSne : secret.data ≠ [] := by
      obtain ⟨S⟩ := secret
      simpa [mk_eq_empty_iff] using hs
    have hQne : agent.data ++ ':' :: secret.data ≠ [] := by
      cases agent.data <;> simp
    have hQw : ∀ c ∈ agent.data ++ ':' :: secret.data, isWS c = false := by
      intro c hc
      rcases List.mem_append.mp hc with hcl | hcr
      · exact haw c hcl
      · rcases List.mem_cons.mp hcr with hcc | hcs
        · rw [hcc]; decide
        · exact hsw c hcs
    have hdata : (agent ++ ":" ++ secret).data = agent.data ++ ':' :: secret.data := by
      simp [data_append]
    have hcutq : cutL ':' (agent.data ++ ':' :: secret.data)
        = some (agent.data, secret.data) := cutL_append ':' _ _ hac
    have hcuts : cutL ':' secret.data = none := cutL_of_not_mem ':' _ hsc
    simp only [validateSecret, hdata]
    rw [validateSecretCore_plain _ _ _ hQne hQw hqb]
    rw [validateSecretCore_plain _ _ _ hSne hsw hsb]
    simp only [hcutq, hcuts]
    rw [if_neg (by simp)]
  · intro other agent secret presented ho hoa hoc how hs hsw hqb
    have hOne : other.data ≠ [] := by
      obtain ⟨O⟩ := other
      simpa [mk_eq_empty_iff] using ho
    have hQne : other.data ++ ':' :: secret.data ≠ [] := by
      cases other.data <;> simp
    have hQw : ∀ c ∈ other.data ++ ':' :: secret.data, isWS c = false := by
      intro c hc
      rcases List.mem_append.mp hc with hcl | hcr
      · exact how c hcl
      · rcases List.mem_cons.mp hcr with hcc | hcs
        · rw [hcc]; decide
        · exact hsw c hcs
    have hdata : (other ++ ":" ++ secret).data = other.data ++ ':' :: secret.data := by
      simp [data_append]
    have hcutq : cutL ':' (other.data ++ ':' :: secret.data)
        = some (other.data, secret.data) := cutL_append ':' _ _ hoc
    have hOa : other.data ≠ agent.data := by
      intro hEq
      apply hoa
      obtain ⟨O⟩ := other
      obtain ⟨A⟩ := agent
      simpa [String.ext_iff] using hEq
    simp only [validateSecret, hdata]
    rw [validateSecretCore_plain _ _ _ hQne hQw hqb]
    simp only [hcutq]
    rw [if_pos ⟨hOne, hOa⟩]

/-- Witness for C3 at concrete values: stripping a "Bearer " marker,
agent-qualified versus bare stored references, and the agent-mismatch
failure. -/
theorem validateSecret_invariance_C3_witness :
    validateSecret ("Bearer " ++ "goodsecret") "bot" "goodsecret"
      = validateSecret "goodsecret" "bot" "goodsecret" ∧
    validateSecret ("bot" ++ ":" ++ "goodsecret") "bot" "goodsecret"
      = validateSecret "goodsecret" "bot" "goodsecret" ∧
    validateSecret ("eve" ++ ":" ++ "goodsecret") "bot" "goodsecret"
      = Except.error "token agent mismatch" :=
  ⟨validateSecret_invariance_C3.1 "Bearer " "goodsecret" "bot" "goodsecret"
      (by decide) (by decide) (by decide) (by decide),
    validateSecret_invariance_C3.2.1 "bot" "goodsecret" "goodsecret"
      (by decide) (by decide) (by decide) (by decide) (by decide) (by decide) (by decide),
    validateSecret_invariance_C3.2.2 "eve" "bot" "goodsecret" "goodsecret"
      (by decide) (by decide) (by decide) (by decide) (by decide) (by decide) (by decide)⟩

/-- Claim C8: upstream URL construction fails whenever the parsed base URL
lacks a scheme or host; otherwise the result's path is the base path with
all trailing slashes stripped, concatenated with the rewritten inbound
path — a path starting with /v1/ loses its /v1 prefix, exactly /v1
becomes /, any other slash-rooted path passes through unmodified — and
the result carries the inbound query string verbatim. -/
theorem buildUpstreamURL_C8 :
    (∀ (base : GoURL) (inc q : String), base.scheme = "" ∨ base.host = "" →
      buildUpstreamURL base inc q = Except.error "invalid base URL") ∧
    (∀ (base : GoURL) (inc q : String), base.scheme ≠ "" → base.host ≠ "" →
      (∀ rest : String, inc = "/v1/" ++ rest →
        buildUpstreamURL base inc q = Except.ok { base with
          path := String.mk (trimRightSlash base.path.data ++ ('/' :: rest.data)),
          rawQuery := q }) ∧
      (inc = "/v1" →
        buildUpstreamURL base inc q = Except.ok { base with
          path := String.mk (trimRightSlash base.path.data ++ ['/']),
          rawQuery := q }) ∧
      (∀ t : List Char, inc.data = '/' :: t →
        (("/v1/").data.isPrefixOf inc.data) = false → inc ≠ "/v1" →
        buildUpstreamURL base inc q = Except.ok { base with
          path := String.mk (trimRightSlash base.path.data ++ inc.data),
          rawQuery := q })) := by
  constructor
  · intro base inc q h
    simp only [buildUpstreamURL]
    rw [if_pos h]
  · intro base inc q hs hh
    have hng : ¬ (base.scheme = "" ∨ base.host = "") := by simp [hs, hh]
    refine ⟨?_, ?_, ?_⟩
    · intro rest hinc
      have hdata : inc.data = '/' :: 'v' :: '1' :: '/' :: rest.data := by
        rw [hinc]
        rw [data_append, show ("/v1/").data = ['/', 'v', '1', '/'] from rfl]
        rfl
      have h1 : (['/'].isPrefixOf inc.data) = true := by
        rw [hdata]; simp [List.isPrefixOf]
      have h2 : ((("/v1/").data).isPrefixOf inc.data) = true := by
        rw [hdata, show ("/v1/").data = ['/', 'v', '1', '/'] from rfl]
        simp [List.isPrefixOf]
      simp only [buildUpstreamURL]
      rw [if_neg hng, if_pos h1, if_pos h2, hdata]
      rfl
    · intro hinc
      have hdata : inc.data = ['/', 'v', '1'] := by rw [hinc]
      have h1 : (['/'].isPrefixOf inc.data) = true := by
        rw [hdata]; simp [List.isPrefixOf]
      have h2 : ((("/v1/").data).isPrefixOf inc.data) = false := by
        rw [hdata]; decide
      simp only [buildUpstreamURL]
      rw [if_neg hng, if_pos h1, if_neg (by simp [h2]), if_pos (by rw [hdata])]
    · intro t ht h2 hne
      have h1 : (['/'].isPrefixOf inc.data) = true := by
        rw [ht]; simp [List.isPrefixOf]
      have h3 : inc.data ≠ ("/v1").data := by
        intro hEq
        apply hne
        obtain ⟨L⟩ := inc
        simpa [String.ext_iff] using hEq
      simp only [buildUpstreamURL]
      rw [if_neg hng, if_pos h1, if_neg (by simp [h2]), if_neg h3]

/-- Witness for C8 at concrete inputs: a v1-rooted inbound path against
a base URL whose path already embeds v1, the bare v1 path, a pass-through
path, and a base URL without a scheme. -/
theorem buildUpstreamURL_C8_witness :
    buildUpstreamURL ⟨"https", "api.openai.com", "/v1/", ""⟩ "/v1/chat/completions" "stream=true"
      = Except.ok ⟨"https", "api.openai.com",
          String.mk (trimRightSlash ("/v1/").data ++ ('/' :: ("chat/completions").data)),
          "stream=true"⟩ ∧
    buildUpstreamURL ⟨"http", "ollama:11434", "", "q"⟩ "/v1" "x=1"
      = Except.ok ⟨"http", "ollama:11434", String.mk (trimRightSlash ("").data ++ ['/']), "x=1"⟩ ∧
    buildUpstreamURL ⟨"https", "h", "/base", ""⟩ "/healthz" ""
      = Except.ok ⟨"https", "h", String.mk (trimRightSlash ("/base").data ++ ("/healthz").data), ""⟩ ∧
    buildUpstreamURL ⟨"", "api.openai.com", "/v1", ""⟩ "/v1/chat/completions" ""
      = Except.error "invalid base URL" :=
  ⟨(buildUpstreamURL_C8.2 ⟨"https", "api.openai.com", "/v1/", ""⟩ "/v1/chat/completions"
      "stream=true" (by decide) (by decide)).1 "chat/completions" (by rfl),
    (buildUpstreamURL_C8.2 ⟨"http", "ollama:11434", "", "q"⟩ "/v1" "x=1"
      (by decide) (by decide)).2.1 (by rfl),
    (buildUpstreamURL_C8.2 ⟨"https", "h", "/base", ""⟩ "/healthz" ""
      (by decide) (by decide)).2.2 ("healthz").data (by rfl) (by decide) (by decide),
    buildUpstreamURL_C8.1 ⟨"", "api.openai.com", "/v1", ""⟩ "/v1/chat/completions" ""
      (Or.inl rfl)⟩

lemma foldl_getD_getLast {α β : Type} (g : α → Option β) :
    ∀ (ls : List α) (a0 : β),
      ls.foldl (fun a l => (g l).getD a) a0 = ((ls.filterMap g).getLast?).getD a0 := by
  intro ls
  induction ls with
  | nil => intro a0; rfl
  | cons l t ih =>
    intro a0
    rw [List.foldl_cons, ih]
    cases hg : g l with
    | none => simp [List.filterMap_cons, hg]
    | some u =>
      simp only [List.filterMap_cons, hg, Option.getD_some]
      cases ht : t.filterMap g with
      | nil => simp
      | cons x xs =>
        rw [List.getLast?_cons_cons]
        rw [List.getLast?_eq_getLast (x :: xs) (by simp)]
        simp

lemma step_eq_gLine (decode : List Char → Option Usage) :
    (fun (last : Usage) (line : List Char) =>
      let line2 := trimL line
      if (("data: ").data.isPrefixOf line2) then
        let payload := line2.drop 6
        if payload = ("[DONE]").data then last
        else
          match decode payload with
          | some u => u
          | none => last
      else last)
    = fun last line => (gLine decode line).getD last := by
  funext last line
  simp only [gLine]
  by_cases h1 : (("data: ").data.isPrefixOf (trimL line)) = true
  · by_cases h2 : (trimL line).drop 6 = ("[DONE]").data
    · simp [h1, h2]
    · cases hd : decode ((trimL line).drop 6) <;> simp [h1, h2, hd]
  · simp [h1]

lemma filterMap_gLine (decode : List Char → Option Usage) :
    ∀ ls : List (List Char),
      ls.filterMap (gLine decode)
        = ((((ls.map trimL).filter (fun l => ("data: ").data.isPrefixOf l)).map
            (fun l => l.drop 6)).filter
              (fun p => decide (p ≠ ("[DONE]").data))).filterMap decode := by
  intro ls
  induction ls with
  | nil => rfl
  | cons l t ih =>
    simp only [List.filterMap_cons, List.map_cons, List.filter_cons]
    by_cases h1 : (("data: ").data.isPrefixOf (trimL l)) = true
    · by_cases h2 : (trimL l).drop 6 = ("[DONE]").data
      · simp [gLine, h1, h2, ih]
      · cases hd : decode ((trimL l).drop 6) with
        | none => simp [gLine, h1, h2, hd, ih]
        | some u => simp [gLine, h1, h2, hd, ih]
    · simp [gLine, h1, ih]

/-- Claim C7: for every payload decoder and byte stream, the SSE usage
extractor returns (without error) the usage of the last usage-bearing
data payload — considering only newline-separated trimmed lines carrying
the data marker, skipping the DONE sentinel and payloads that decode to
no usage — and the all-zero usage when no payload carries usage; with two
usage-bearing chunks the later one wins. -/
theorem sse_last_usage_C7 :
    (∀ (decode : List Char → Option Usage) (stream : String),
      ExtractUsageFromSSE decode stream
        = Except.ok ((((dataPayloads stream).filterMap decode).getLast?).getD ⟨0, 0, 0⟩)) ∧
    ExtractUsageFromSSE sampleDecode "data: one\ndata: two\ndata: [DONE]\n"
      = Except.ok ⟨100, 50, 150⟩ ∧
    ExtractUsageFromSSE sampleDecode "event: x\ndata: [DONE]\nhello"
      = Except.ok ⟨0, 0, 0⟩ := by
  refine ⟨?_, by rfl, by rfl⟩
  intro decode stream
  simp only [ExtractUsageFromSSE, dataPayloads]
  rw [step_eq_gLine decode]
  rw [foldl_getD_getLast (gLine decode) (splitNL stream.data) ⟨0, 0, 0⟩]
  rw [filterMap_gLine decode (splitNL stream.data)]

lemma str_ne_empty_iff (s : String) : s ≠ "" ↔ s.data ≠ [] := by
  obtain ⟨L⟩ := s
  exact not_congr (mk_eq_empty_iff L)

lemma length_le_of_takeS {model k : String} (h : takeS model k.length = k) :
    k.length ≤ model.length := by
  have hlen : (model.data.take k.length).length = k.data.length := by
    rw [show model.data.take k.length = k.data from congrArg String.data h]
  rw [List.length_take] at hlen
  have hk : k.length = k.data.length := rfl
  have hm : model.length = model.data.length := rfl
  omega

lemma lookupFold_spec (model : String) (entries : List (String × Rate)) :
    ∀ acc : Rate × Nat,
      acc.2 ≤ (entries.foldl (lookupStep model) acc).2 ∧
      (∀ k r, (k, r) ∈ entries → takeS model k.length = k →
        k.length ≤ (entries.foldl (lookupStep model) acc).2) ∧
      ((entries.foldl (lookupStep model) acc) = acc ∨
        ∃ k r, (k, r) ∈ entries ∧ takeS model k.length = k ∧
          (entries.foldl (lookupStep model) acc) = (r, k.length)) := by
  induction entries with
  | nil => intro acc; exact ⟨Nat.le_refl _, by simp, Or.inl rfl⟩
  | cons e t ih =>
    intro acc
    rw [List.foldl_cons]
    obtain ⟨ih1, ih2, ih3⟩ := ih (lookupStep model acc e)
    have hstep : acc.2 ≤ (lookupStep model acc e).2 := by
      unfold lookupStep
      split
      · rename_i hcond
        exact Nat.le_of_lt hcond.1
      · exact Nat.le_refl _
    refine ⟨Nat.le_trans hstep ih1, ?_, ?_⟩
    · intro k r hmem htake
      rcases List.mem_cons.mp hmem with heq | hmem2
      · have hk1 : k = e.1 := congrArg Prod.fst heq
        by_cases hcond : (e.1.length > acc.2 ∧ e.1.length ≤ model.length ∧
            takeS model e.1.length = e.1)
        · have hstep2 : (lookupStep model acc e).2 = e.1.length := by
            unfold lookupStep
            rw [if_pos hcond]
          rw [hk1]
          calc e.1.length = (lookupStep model acc e).2 := hstep2.symm
            _ ≤ _ := ih1
        · have htk : takeS model e.1.length = e.1 := by rw [← hk1]; exact htake
          have hlen : e.1.length ≤ model.length := length_le_of_takeS htk
          have hle : e.1.length ≤ acc.2 := by
            by_contra hgt
            push_neg at hgt
            exact hcond ⟨hgt, hlen, htk⟩
          rw [hk1]
          exact Nat.le_trans hle (Nat.le_trans hstep ih1)
      · exact ih2 k r hmem2 htake
    · rcases ih3 with h | ⟨k, r, hm, ht, hres⟩
      · by_cases hcond : (e.1.length > acc.2 ∧ e.1.length ≤ model.length ∧
            takeS model e.1.length = e.1)
        · right
          refine ⟨e.1, e.2, List.mem_cons_self _ _, hcond.2.2, ?_⟩
          rw [h]
          unfold lookupStep
          rw [if_pos hcond]
        · left
          rw [h]
          unfold lookupStep
          rw [if_neg hcond]
      · exact Or.inr ⟨k, r, List.mem_cons_of_mem _ hm, ht, hres⟩

/-- Claim C6: pricing Lookup returns the exactly matching configured rate
when one exists; otherwise the rate of the longest configured key that is
a string prefix of the requested model; and none when the provider is
unknown or no configured key is a prefix.  Concretely, in the default
table the dated claude-sonnet-4-20250514 resolves to the claude-sonnet-4
rate (no exact entry exists), and zero-prefix-match or unknown-provider
lookups are not found. -/
theorem pricing_lookup_C6 :
    (∀ (p : Pricing) (prov model : String) (models : List (String × Rate)) (r : Rate),
      p.rates.lookup prov = some models → models.lookup model = some r →
      Lookup p prov model = some r) ∧
    (∀ (p : Pricing) (prov model : String),
      p.rates.lookup prov = none → Lookup p prov model = none) ∧
    (∀ (p : Pricing) (prov model : String) (models : List (String × Rate)),
      p.rates.lookup prov = some models → models.lookup model = none →
      ((∃ k r, (k, r) ∈ models ∧ k ≠ "" ∧ takeS model k.length = k ∧
          (∀ k2 r2, (k2, r2) ∈ models → takeS model k2.length = k2 →
            k2.length ≤ k.length) ∧
          Lookup p prov model = some r) ∨
        ((∀ k r, (k, r) ∈ models → k ≠ "" → takeS model k.length ≠ k) ∧
          Lookup p prov model = none))) ∧
    (Lookup DefaultPricing "anthropic" "claude-sonnet-4-20250514" = some ⟨3.0, 15.0⟩ ∧
      (((DefaultPricing.rates.lookup "anthropic").getD []).lookup "claude-sonnet-4-20250514"
        = none) ∧
      Lookup DefaultPricing "anthropic" "zzz" = none ∧
      Lookup DefaultPricing "mistral" "m" = none) := by
  refine ⟨?_, ?_, ?_, by rfl, by rfl, by rfl, by rfl⟩
  · intro p prov model models r h1 h2
    simp only [Lookup, h1, h2]
  · intro p prov model h
    simp only [Lookup, h]
  · intro p prov model models hprov hexact
    obtain ⟨s1, s2, s3⟩ := lookupFold_spec model models (⟨0, 0⟩, 0)
    by_cases hex : ∃ k r, (k, r) ∈ models ∧ k ≠ "" ∧ takeS model k.length = k
    · obtain ⟨k, r, hm, hk, ht⟩ := hex
      have hkpos : 0 < k.length :=
        List.length_pos.mpr ((str_ne_empty_iff k).mp hk)
      have hbpos : 0 < (models.foldl (lookupStep model) (⟨0, 0⟩, 0)).2 :=
        Nat.lt_of_lt_of_le hkpos (s2 k r hm ht)
      rcases s3 with hacc | ⟨k2, r2, hm2, ht2, hres⟩
      · rw [hacc] at hbpos
        simp at hbpos
      · left
        have hk2pos : 0 < k2.length := by
          rw [hres] at hbpos
          exact hbpos
        refine ⟨k2, r2, hm2, ?_, ht2, ?_, ?_⟩
        · rw [str_ne_empty_iff]
          intro hnil
          rw [show k2.length = k2.data.length from rfl, hnil] at hk2pos
          simp at hk2pos
        · intro k3 r3 hm3 ht3
          have hle := s2 k3 r3 hm3 ht3
          rw [hres] at hle
          exact hle
        · simp only [Lookup, hprov, hexact]
          rw [hres]
          simp [hk2pos]
    · right
      push_neg at hex
      refine ⟨hex, ?_⟩
      have hb0 : (models.foldl (lookupStep model) (⟨0, 0⟩, 0)).2 = 0 := by
        rcases s3 with hacc | ⟨k2, r2, hm2, ht2, hres⟩
        · rw [hacc]
        · by_cases hk2 : k2 = ""
          · rw [hres, hk2]
            rfl
          · exact absurd ht2 (hex k2 r2 hm2 hk2)
      simp only [Lookup, hprov, hexact]
      rw [if_neg (by simp [hb0])]

/-- Witness for C6 at the default table: an exact hit, an unknown
provider, and the longest-prefix disjunction for the dated
claude-sonnet-4 model, each obtained by applying the theorem with its
hypotheses discharged by evaluation. -/
theorem pricing_lookup_C6_witness :
    Lookup DefaultPricing "openai" "gpt-4o" = some ⟨2.50, 10.0⟩ ∧
    Lookup DefaultPricing "mistral" "m" = none ∧
    ((∃ k r, (k, r) ∈ ((DefaultPricing.rates.lookup "anthropic").getD []) ∧ k ≠ "" ∧
        takeS "claude-sonnet-4-20250514" k.length = k ∧
        (∀ k2 r2, (k2, r2) ∈ ((DefaultPricing.rates.lookup "anthropic").getD []) →
          takeS "claude-sonnet-4-20250514" k2.length = k2 → k2.length ≤ k.length) ∧
        Lookup DefaultPricing "anthropic" "claude-sonnet-4-20250514" = some r) ∨
      ((∀ k r, (k, r) ∈ ((DefaultPricing.rates.lookup "anthropic").getD []) → k ≠ "" →
          takeS "claude-sonnet-4-20250514" k.length ≠ k) ∧
        Lookup DefaultPricing "anthropic" "claude-sonnet-4-20250514" = none)) :=
  ⟨pricing_lookup_C6.1 DefaultPricing "openai" "gpt-4o"
      ((DefaultPricing.rates.lookup "openai").getD []) ⟨2.50, 10.0⟩ rfl rfl,
    pricing_lookup_C6.2.1 DefaultPricing "mistral" "m" rfl,
    pricing_lookup_C6.2.2.1 DefaultPricing "anthropic" "claude-sonnet-4-20250514"
      ((DefaultPricing.rates.lookup "anthropic").getD []) rfl rfl⟩

lemma foldl_record_at (k : BucketKey) :
    ∀ (calls : List RecordCall) (b : BucketKey → Option CostEntry),
      (calls.foldl record b) k
        = (calls.filter (fun c => decide (keyOf c = k))).foldl
            (fun o c => some (bump o c)) (b k) := by
  intro calls
  induction calls with
  | nil => intro b; rfl
  | cons c t ih =>
    intro b
    rw [List.foldl_cons, ih]
    by_cases hk : keyOf c = k
    · rw [List.filter_cons_of_pos (by simp [hk])]
      rw [List.foldl_cons]
      have hrk : (record b c) k = some (bump (b k) c) := by
        unfold record
        rw [if_pos hk.symm]
      rw [hrk]
    · rw [List.filter_cons_of_neg (by simp [hk])]
      have hrk : (record b c) k = b k := by
        unfold record
        rw [if_neg (fun hEq => hk hEq.symm)]
      rw [hrk]

lemma foldl_bump_some (rel : List RecordCall) :
    ∀ (e : CostEntry),
      rel.foldl (fun o c => some (bump o c)) (some e)
        = some ⟨e.agentID, e.provider, e.model,
            e.totalInputTokens + (rel.map (fun c => c.inputTokens)).sum,
            e.totalOutputTokens + (rel.map (fun c => c.outputTokens)).sum,
            (rel.map (fun c => c.costUSD)).foldl f64Add e.totalCostUSD,
            e.requestCount + rel.length⟩ := by
  induction rel with
  | nil => intro e; simp
  | cons c t ih =>
    intro e
    rw [List.foldl_cons, ih (bump (some e) c)]
    simp only [bump, Option.getD_some, List.map_cons, List.sum_cons, List.foldl_cons,
      List.length_cons, Option.some.injEq, CostEntry.mk.injEq]
    refine ⟨trivial, trivial, trivial, by ring, by ring, trivial, by omega⟩

lemma foldl_bump_none (k : BucketKey) (rel : List RecordCall)
    (hrel : ∀ c ∈ rel, keyOf c = k) :
    rel.foldl (fun o c => some (bump o c)) none
      = if rel = [] then none
        else some ⟨k.1, k.2.1, k.2.2,
          (rel.map (fun c => c.inputTokens)).sum,
          (rel.map (fun c => c.outputTokens)).sum,
          (rel.map (fun c => c.costUSD)).foldl f64Add f64Zero,
          rel.length⟩ := by
  cases rel with
  | nil => rfl
  | cons c t =>
    rw [if_neg (by simp)]
    rw [List.foldl_cons, foldl_bump_some t (bump none c)]
    have hkey : keyOf c = k := hrel c (by simp)
    rw [← hkey]
    simp only [bump, Option.getD_none, keyOf, List.map_cons, List.sum_cons, List.foldl_cons,
      List.length_cons, Option.some.injEq, CostEntry.mk.injEq]
    refine ⟨trivial, trivial, trivial, by ring, by ring, trivial, by omega⟩

lemma recordAll_char (calls : List RecordCall) (k : BucketKey) :
    recordAll calls k
      = if (calls.filter (fun c => decide (keyOf c = k))) = [] then none
        else some ⟨k.1, k.2.1, k.2.2,
          ((calls.filter (fun c => decide (keyOf c = k))).map (fun c => c.inputTokens)).sum,
          ((calls.filter (fun c => decide (keyOf c = k))).map (fun c => c.outputTokens)).sum,
          ((calls.filter (fun c => decide (keyOf c = k))).map (fun c => c.costUSD)).foldl
            f64Add f64Zero,
          (calls.filter (fun c => decide (keyOf c = k))).length⟩ := by
  unfold recordAll
  rw [foldl_record_at k calls (fun _ => none)]
  apply foldl_bump_none
  intro c hc
  have := List.of_mem_filter hc
  simpa using this

/-- Claim C9 as amended: for every finite list of Record calls starting
from a fresh accumulator, the bucket of each (agent, provider, model)
key — created on the first call for its key — holds the exact sums of the
recorded input and output tokens and the number of calls with that key,
all independent of the order in which the calls are applied; the cost
aggregate is the float64 left-fold of the recorded costs in application
order (by the counterexample it is not order-independent, float64
addition being non-associative). -/
theorem accumulator_record_C9 :
    (∀ (calls : List RecordCall) (k : BucketKey),
      recordAll calls k
        = if (calls.filter (fun c => decide (keyOf c = k))) = [] then none
          else some ⟨k.1, k.2.1, k.2.2,
            ((calls.filter (fun c => decide (keyOf c = k))).map (fun c => c.inputTokens)).sum,
            ((calls.filter (fun c => decide (keyOf c = k))).map (fun c => c.outputTokens)).sum,
            ((calls.filter (fun c => decide (keyOf c = k))).map (fun c => c.costUSD)).foldl
              f64Add f64Zero,
            (calls.filter (fun c => decide (keyOf c = k))).length⟩) ∧
    (∀ (calls1 calls2 : List RecordCall), List.Perm calls1 calls2 →
      ∀ k : BucketKey,
        (recordAll calls1 k).map
            (fun e => (e.totalInputTokens, e.totalOutputTokens, e.requestCount))
          = (recordAll calls2 k).map
            (fun e => (e.totalInputTokens, e.totalOutputTokens, e.requestCount))) := by
  refine ⟨recordAll_char, ?_⟩
  intro calls1 calls2 hperm k
  rw [recordAll_char calls1 k, recordAll_char calls2 k]
  have hf : List.Perm (calls1.filter (fun c => decide (keyOf c = k)))
      (calls2.filter (fun c => decide (keyOf c = k))) := hperm.filter _
  by_cases h1 : calls1.filter (fun c => decide (keyOf c = k)) = []
  · have h2 : calls2.filter (fun c => decide (keyOf c = k)) = [] := by
      rw [h1] at hf
      exact hf.symm.eq_nil
    rw [if_pos h1, if_pos h2]
  · have h2 : calls2.filter (fun c => decide (keyOf c = k)) ≠ [] := by
      intro hnil
      rw [hnil] at hf
      exact h1 hf.eq_nil
    rw [if_neg h1, if_neg h2]
    have hin := (hf.map (fun c => c.inputTokens)).sum_eq
    have hout := (hf.map (fun c => c.outputTokens)).sum_eq
    have hlen := hf.length_eq
    simp [hin, hout, hlen]

/-- Counterexample for C9 as frozen: recording the float64 costs 0.1, 0.2,
0.3 into one bucket in two different orders yields different cumulative
cost totals (0.1 + 0.2 + 0.3 rounds to 0.6000000000000001, while
0.3 + 0.2 + 0.1 rounds to 0.6), so the cost aggregate is not independent
of the order of the Record calls. -/
theorem accumulator_record_C9_counterexample :
    (recordAll [⟨"bot", "anthropic", "m", 1, 1, f64OfTenth⟩,
                ⟨"bot", "anthropic", "m", 1, 1, f64OfFifth⟩,
                ⟨"bot", "anthropic", "m", 1, 1, f64OfThreeTenths⟩]
        ("bot", "anthropic", "m")).map (fun e => e.totalCostUSD)
      ≠ (recordAll [⟨"bot", "anthropic", "m", 1, 1, f64OfThreeTenths⟩,
                    ⟨"bot", "anthropic", "m", 1, 1, f64OfFifth⟩,
                    ⟨"bot", "anthropic", "m", 1, 1, f64OfTenth⟩]
        ("bot", "anthropic", "m")).map (fun e => e.totalCostUSD) := by
  decide

/-- Witness for C9: permuting two concrete Record calls leaves every
bucket's token totals and request count unchanged. -/
theorem accumulator_record_C9_witness :
    (recordAll [⟨"bot", "anthropic", "claude-sonnet-4", 100, 50, f64OfTenth⟩,
                ⟨"westin", "openrouter", "anthropic/claude-sonnet-4", 7, 3, f64OfFifth⟩]
        ("bot", "anthropic", "claude-sonnet-4")).map
        (fun e => (e.totalInputTokens, e.totalOutputTokens, e.requestCount))
      = (recordAll [⟨"westin", "openrouter", "anthropic/claude-sonnet-4", 7, 3, f64OfFifth⟩,
                    ⟨"bot", "anthropic", "claude-sonnet-4", 100, 50, f64OfTenth⟩]
        ("bot", "anthropic", "claude-sonnet-4")).map
        (fun e => (e.totalInputTokens, e.totalOutputTokens, e.requestCount)) :=
  accumulator_record_C9.2 _ _ (List.Perm.swap _ _ _) ("bot", "anthropic", "claude-sonnet-4")

end Proxy
